import Mathlib

set_option autoImplicit false

namespace SantosArchive

/-! Shallow embedding of the asynchronous data-collection pipeline of
`src/desenvolvimento.py`: the retrying fetcher, the per-area collection loop
with its processed-id set, the enrichment helpers and the persistence step. -/

/-- JSON scalar value as it may appear in the latitude and longitude slots of a
Places details response: a number, a string, or absent/null (the code reads it
via `details.get('geometry', {}).get('location', {}).get('lat')`, which yields
`None` when any level is missing). -/
inductive JVal where
  | num (q : Rat)
  | str (s : String)
  | null
  deriving DecidableEq

/-- The `types` field of a details response: either a JSON list of strings or a
bare non-list value, kept as a string (the code checks `isinstance(types, list)`
before joining). -/
inductive TypesVal where
  | list (l : List String)
  | str (s : String)
  deriving DecidableEq

/-- The `result` object of a Places details response, flattened to the fields
`process_pharmacy` reads (`geometry.location.lat`/`lng` are flattened to
`lat`/`lng`). On an `Option` field, `none` models the key being absent from the
dict; `JVal.null` plays that role for the coordinates. -/
structure Details where
  name : Option String := none
  formatted_address : Option String := none
  rating : Option Rat := none
  user_ratings_total : Option Int := none
  formatted_phone_number : Option String := none
  types : Option TypesVal := none
  lat : JVal := .null
  lng : JVal := .null
  deriving DecidableEq

/-- Python truthiness test `if not details` on the (flattened) details dict:
true exactly when every field is absent. -/
def Details.isEmpty (d : Details) : Bool :=
  d.name.isNone && d.formatted_address.isNone && d.rating.isNone &&
  d.user_ratings_total.isNone && d.formatted_phone_number.isNone &&
  d.types.isNone && d.lat == .null && d.lng == .null

/-- A Places details API response as seen by `get_company_details`: either it
carries a `result` object or it does not. -/
inductive DetailsResp where
  | noResult
  | result (d : Details)
  deriving DecidableEq

/-- The empty details dict `{}`. -/
def emptyDetails : Details := {}

/-- Shallow embedding of `get_company_details` (src/desenvolvimento.py:160-173):
return the `result` object of the response, or the empty dict when the response
lacks a `result` field. -/
def get_company_details (resp : DetailsResp) : Details :=
  match resp with
  | .noResult => emptyDetails
  | .result d => d

/-- Address components assembled by `parse_address`; `none` models a key absent
from the returned dict (the Python assignment sequence stopped at an
`IndexError`). -/
structure AddressComponents where
  route : Option String := none
  neighborhood : Option String := none
  locality : Option String := none
  deriving DecidableEq

/-- ASCII whitespace, as stripped by Python `str.strip()` (the non-ASCII
whitespace Python also strips does not survive the pipeline's inputs of
interest). -/
def isPyWs (c : Char) : Bool :=
  c = ' ' || c = '\t' || c = '\n' || c = '\r' || c = '\x0b' || c = '\x0c'

/-- Python `str.split(sep)` on a character list: splitting always yields at
least one segment, and splitting the empty string yields one empty segment. -/
def splitChar (sep : Char) : List Char → List (List Char)
  | [] => [[]]
  | c :: cs =>
    let r := splitChar sep cs
    if c = sep then [] :: r
    else
      match r with
      | [] => [[c]]
      | w :: ws => (c :: w) :: ws

/-- Remove the trailing whitespace of a character list (the second half of
Python `str.strip()`), keeping a prefix of the input. -/
def trimTrailing : List Char → List Char
  | [] => []
  | c :: cs =>
    if trimTrailing cs = [] then (if isPyWs c then [] else [c])
    else c :: trimTrailing cs

/-- Python `str.strip()` on a character list: drop leading and trailing
whitespace. -/
def trimChars (l : List Char) : List Char :=
  trimTrailing (l.dropWhile isPyWs)

/-- Python `str.strip()` on strings. -/
def pyStrip (s : String) : String :=
  ⟨trimChars s.data⟩

/-- Python `str.split(sep)` on strings. -/
def pySplit (s : String) (sep : Char) : List String :=
  (splitChar sep s.data).map (fun l => (⟨l⟩ : String))

/-- Shallow embedding of `parse_address` (src/desenvolvimento.py:196-206): split
the formatted address on commas and strip the first three segments, assignments
stopping at the first missing segment. `pySplit` agrees with Python
`str.split(',')`; in particular both return a single empty segment on `""`, so
the list of parts is never empty. Because the present segments form a prefix
of the part list, assigning each present segment independently is equivalent
to the Python try/except assignment sequence. -/
def parse_address (formatted_address : String) : AddressComponents :=
  let parts := pySplit formatted_address ','
  { route := (parts.get? 0).map pyStrip
    neighborhood := (parts.get? 1).map pyStrip
    locality := (parts.get? 2).map pyStrip }

/-- Shallow embedding of `classify_company_size` (src/desenvolvimento.py:208-216);
`none` models Python `None`. -/
def classify_company_size (user_ratings_total : Option Int) : String :=
  match user_ratings_total with
  | none => "Pequena"
  | some v =>
    if v = 0 then "Pequena"
    else if 100 ≤ v then "Grande"
    else if 20 ≤ v then "Média"
    else "Pequena"

/-- The record assembled by `process_pharmacy` for one place. -/
structure PharmacyData where
  placeID : String
  name : String
  address : String
  neighborhood : String
  street : String
  city : String
  rating : Rat
  userRatingsTotal : Int
  phone : String
  types : String
  category : String
  latitude : JVal
  longitude : JVal
  socialLinks : List String
  deriving DecidableEq

/-- Configuration and social-search collaborator for `process_pharmacy`:
`cseConfigured` models whether `CUSTOM_SEARCH_ENGINE_ID` is set, and
`socialOf name city` models the link list returned by the
`get_social_media_links` network call for that company name and city. -/
structure SocialCfg where
  cseConfigured : Bool
  socialOf : String → String → List String

/-- Rendering of the `Types` field: `', '.join(types)` when the value is a
list (absent key defaults to the empty list), the raw value otherwise. -/
def typesToString : Option TypesVal → String
  | none => ""
  | some (.list l) => String.intercalate ", " l
  | some (.str s) => s

/-- Shallow embedding of `process_pharmacy` (src/desenvolvimento.py:222-254),
with the details response and the social-search collaborator passed in
explicitly. Returns `none` when the details dict is empty (`if not details`),
which happens in particular when the response lacked a `result` field. -/
def process_pharmacy (cfg : SocialCfg) (place_id city : String) (resp : DetailsResp) :
    Option PharmacyData :=
  let details := get_company_details resp
  if details.isEmpty then none
  else
    let company_name := details.name.getD "N/A"
    let social_links := if cfg.cseConfigured then cfg.socialOf company_name city else []
    let formatted_address := details.formatted_address.getD ""
    let address_components := parse_address formatted_address
    some
      { placeID := place_id
        name := company_name
        address := formatted_address
        neighborhood := address_components.neighborhood.getD "N/A"
        street := address_components.route.getD "N/A"
        city := address_components.locality.getD "N/A"
        rating := details.rating.getD 0
        userRatingsTotal := details.user_ratings_total.getD 0
        phone := details.formatted_phone_number.getD "N/A"
        types := typesToString details.types
        category := "Farmácia"
        latitude := details.lat
        longitude := details.lng
        socialLinks := social_links }

/-- Outcome of one HTTP attempt inside `fetch_json`: a successful JSON payload
of type `α`, a `ClientResponseError` carrying its HTTP status (as raised by
`response.raise_for_status()`), an `asyncio.TimeoutError`, or any other
exception. -/
inductive AttemptResult (α : Type) where
  | success (payload : α)
  | httpError (status : Nat)
  | timeout
  | otherError
  deriving DecidableEq

/-- Result of a `fetch_json` call: the returned value (`none` models the empty
dict `{}` returned on failure) together with the list of backoff sleeps
performed, in order. The embedding is a total function, so no exception ever
reaches the caller. -/
structure FetchOutcome (α : Type) where
  value : Option α
  sleeps : List Rat
  deriving DecidableEq

/-- The statuses `fetch_json` treats as temporary (`[429, 500, 502, 503, 504]`). -/
def retryableStatus (s : Nat) : Bool :=
  [429, 500, 502, 503, 504].contains s

/-- Whether an attempt outcome takes one of the retry branches of the loop: a
retryable HTTP error, a timeout, or any other unexpected exception. -/
def AttemptResult.retryableFail {α : Type} : AttemptResult α → Bool
  | .success _ => false
  | .httpError s => retryableStatus s
  | .timeout => true
  | .otherError => true

/-- The wait time `backoff_factor * (2 ** attempt)` slept before a retry. -/
def backoffTime (backoff_factor : Rat) (attempt : Nat) : Rat :=
  backoff_factor * 2 ^ attempt

/-- Shallow embedding of the attempt loop of `fetch_json`
(src/desenvolvimento.py:96-126). `outcome i` is what the `i`-th attempt does
(0-based, as in `for attempt in range(retries)`); `fuel` is the number of loop
iterations left, `attempt` the current index, `sleeps` the backoff sleeps
accumulated so far in reverse order. A success returns the payload; a
retryable HTTP error, a timeout or an unexpected exception sleeps and
continues; any other HTTP error breaks out; falling off the loop returns the
empty dict. -/
def fetchLoop (α : Type) (outcome : Nat → AttemptResult α) (backoff_factor : Rat) :
    Nat → Nat → List Rat → FetchOutcome α
  | 0, _, sleeps => ⟨none, sleeps.reverse⟩
  | fuel + 1, attempt, sleeps =>
    match outcome attempt with
    | .success d => ⟨some d, sleeps.reverse⟩
    | .httpError s =>
      if retryableStatus s then
        fetchLoop α outcome backoff_factor fuel (attempt + 1)
          (backoffTime backoff_factor attempt :: sleeps)
      else ⟨none, sleeps.reverse⟩
    | .timeout =>
      fetchLoop α outcome backoff_factor fuel (attempt + 1)
        (backoffTime backoff_factor attempt :: sleeps)
    | .otherError =>
      fetchLoop α outcome backoff_factor fuel (attempt + 1)
        (backoffTime backoff_factor attempt :: sleeps)

/-- Shallow embedding of `fetch_json` (src/desenvolvimento.py:96-126): run the
attempt loop from attempt 0 with no sleeps performed yet. All call sites use
the default `retries=3`. -/
def fetch_json (α : Type) (outcome : Nat → AttemptResult α) (backoff_factor : Rat)
    (retries : Nat) : FetchOutcome α :=
  fetchLoop α outcome backoff_factor retries 0 []

/-- The sleeps performed by `k` consecutive retried failures starting at
attempt index `a`: the `i`-th entry is `backoff_factor * 2 ^ (a + i)`. -/
def sleepsFor (backoff_factor : Rat) : Nat → Nat → List Rat
  | _, 0 => []
  | a, k + 1 => backoffTime backoff_factor a :: sleepsFor backoff_factor (a + 1) k

/-- Witness input for C1: attempt 0 times out, attempt 1 succeeds with
payload 42. -/
def c1Outcome : Nat → AttemptResult Nat :=
  fun i => if i = 1 then .success 42 else .timeout

/-- Witness input for C2, break case: every attempt fails with HTTP 404. -/
def c2Outcome : Nat → AttemptResult Nat :=
  fun _ => .httpError 404

/-- Witness input for C2, exhaustion case: every attempt times out. -/
def c2bOutcome : Nat → AttemptResult Nat :=
  fun _ => .timeout

/-- Upstream environment of one `collect_data` run: the social-search
configuration, the `place_id` values accumulated by the search stage per city
(`all_results_city` reduced to the only field the loop reads), and the details
response the Places details API gives for each `place_id`. Identical upstream
data across runs is modelled by running `collect_data` twice with the same
environment. -/
structure PipelineEnv where
  cfg : SocialCfg
  candidates : String → List String
  detailsResp : String → DetailsResp

/-- Python `set.add` on the list model of a set: append the element unless it
is already present. -/
def setAdd (s : List String) (x : String) : List String :=
  if x ∈ s then s else s ++ [x]

/-- The set `place_ids` built by `collect_data` for one city
(src/desenvolvimento.py:279-283): iterate over the accumulated candidates and
add each id not yet in the processed set. -/
def newPlaceIds (cands : List String) (processed : List String) : List String :=
  cands.foldl (fun acc p => if p ∈ processed then acc else setAdd acc p) []

/-- One iteration of the city loop of `collect_data`
(src/desenvolvimento.py:272-304) from a given processed-id set: compute the
unseen candidate ids; when that set is empty the city is skipped (`none` — no
detail fetches, no save); otherwise fan `process_pharmacy` out over the ids
(`areaRecs`: the `asyncio.gather` result list filtered to the truthy records),
and add each kept record's `PlaceID` to the processed set. `collectArea`
returns the kept records and the updated set. -/
def areaRecs (env : PipelineEnv) (processed : List String) (city : String) :
    List PharmacyData :=
  ((newPlaceIds (env.candidates city) processed).map
    (fun pid => process_pharmacy env.cfg pid city (env.detailsResp pid))).filterMap id

def collectArea (env : PipelineEnv) (processed : List String) (city : String) :
    Option (List PharmacyData × List String) :=
  if newPlaceIds (env.candidates city) processed = [] then none
  else
    some (areaRecs env processed city,
      (areaRecs env processed city).foldl (fun s c => setAdd s c.placeID) processed)

/-- State threaded through the city loop of `collect_data`: the collected
companies per city, the in-memory processed-id set, and the successive
contents written by `save_processed_place_ids`, in order. -/
structure RunState where
  companies : List (String × List PharmacyData)
  processed : List String
  snapshots : List (List String)
  deriving DecidableEq

/-- One city step of `collect_data`: a skipped city leaves the state untouched
(the `continue` fires before any fetch or save); otherwise the kept records are
appended under the city key (only when at least one record is truthy, mirroring
the lazy `all_companies[city] = []` initialization), the processed set is
replaced by its grown version, and that version is persisted as a snapshot. -/
def collectStep (env : PipelineEnv) (st : RunState) (city : String) : RunState :=
  match collectArea env st.processed city with
  | none => st
  | some (recs, processed') =>
    { companies := if recs = [] then st.companies else st.companies ++ [(city, recs)]
      processed := processed'
      snapshots := st.snapshots ++ [processed'] }

/-- Shallow embedding of `collect_data` (src/desenvolvimento.py:266-306): fold
the per-city step over the city list, starting from the loaded processed-id
set with no collected companies and no persisted snapshots. -/
def collect_data (env : PipelineEnv) (cities : List String)
    (processed0 : List String) : RunState :=
  cities.foldl (collectStep env) ⟨[], processed0, []⟩

/-- Witness configuration: no custom search engine id. -/
def cfgC : SocialCfg := ⟨false, fun _ _ => []⟩

/-- Witness details object: only a name. -/
def detB : Details := { name := some "B" }

/-- Witness environment: one city with candidates `p1` and `p2`; details exist
only for `p2`. -/
def envC : PipelineEnv :=
  ⟨cfgC, fun _ => ["p1", "p2"],
   fun p => if p = "p2" then .result detB else .noResult⟩

/-- The record `process_pharmacy` assembles for `p2` under `envC`. -/
def recB : PharmacyData :=
  { placeID := "p2", name := "B", address := "", neighborhood := "N/A",
    street := "", city := "N/A", rating := 0, userRatingsTotal := 0,
    phone := "N/A", types := "", category := "Farmácia", latitude := JVal.null,
    longitude := JVal.null, socialLinks := [] }

/-- C6: size classification is a total function on the review-count metric:
`None` or 0 map to "Pequena", any value at least 100 maps to "Grande", any
value in [20, 100) maps to "Média", and any other value maps to "Pequena"; in
particular 19 is "Pequena", 20 and 99 are "Média", 100 and 1000 are "Grande". -/
theorem classify_company_size_spec :
    classify_company_size none = "Pequena" ∧
    classify_company_size (some 0) = "Pequena" ∧
    (∀ v : Int, 100 ≤ v → classify_company_size (some v) = "Grande") ∧
    (∀ v : Int, 20 ≤ v → v < 100 → classify_company_size (some v) = "Média") ∧
    (∀ v : Int, v < 20 → classify_company_size (some v) = "Pequena") ∧
    classify_company_size (some 19) = "Pequena" ∧
    classify_company_size (some 20) = "Média" ∧
    classify_company_size (some 99) = "Média" ∧
    classify_company_size (some 100) = "Grande" ∧
    classify_company_size (some 1000) = "Grande" := by
  refine ⟨rfl, rfl, ?_, ?_, ?_, rfl, rfl, rfl, rfl, rfl⟩
  · intro v hv
    simp only [classify_company_size]
    rw [if_neg (by omega), if_pos hv]
  · intro v hv hv'
    simp only [classify_company_size]
    rw [if_neg (by omega), if_neg (by omega), if_pos hv]
  · intro v hv
    by_cases h0 : v = 0
    · simp [classify_company_size, h0]
    · simp only [classify_company_size]
      rw [if_neg h0, if_neg (by omega), if_neg (by omega)]

/-- Witness for C6: the quantified clauses of `classify_company_size_spec`
evaluated at 150, 50 and 7. -/
theorem classify_company_size_spec_witness :
    classify_company_size (some 150) = "Grande" ∧
    classify_company_size (some 50) = "Média" ∧
    classify_company_size (some 7) = "Pequena" :=
  ⟨classify_company_size_spec.2.2.1 150 (by decide),
   classify_company_size_spec.2.2.2.1 50 (by decide) (by decide),
   classify_company_size_spec.2.2.2.2.1 7 (by decide)⟩

lemma sleepsFor_get (b : Rat) :
    ∀ (k a i : Nat), i < k →
      (sleepsFor b a k)[i]? = some (backoffTime b (a + i))
  | k + 1, a, 0, _ => by simp [sleepsFor]
  | k + 1, a, i + 1, h => by
    simp only [sleepsFor, List.getElem?_cons_succ]
    rw [sleepsFor_get b k (a + 1) i (by omega)]
    have hai : a + 1 + i = a + (i + 1) := by omega
    rw [hai]

lemma fetchLoop_step (α : Type) (outcome : Nat → AttemptResult α) (b : Rat)
    (f attempt : Nat) (sleeps : List Rat)
    (h : (outcome attempt).retryableFail = true) :
    fetchLoop α outcome b (f + 1) attempt sleeps =
      fetchLoop α outcome b f (attempt + 1) (backoffTime b attempt :: sleeps) := by
  cases hout : outcome attempt with
  | success p => rw [hout] at h; simp [AttemptResult.retryableFail] at h
  | httpError s =>
    have hrs : retryableStatus s = true := by
      rw [hout] at h; simpa [AttemptResult.retryableFail] using h
    simp [fetchLoop, hout, hrs]
  | timeout => simp [fetchLoop, hout]
  | otherError => simp [fetchLoop, hout]

lemma fetchLoop_success (α : Type) (outcome : Nat → AttemptResult α) (b : Rat) :
    ∀ (k : Nat), ∀ (fuel attempt : Nat) (sleeps : List Rat) (d : α),
      k < fuel →
      outcome (attempt + k) = AttemptResult.success d →
      (∀ i, i < k → (outcome (attempt + i)).retryableFail = true) →
      fetchLoop α outcome b fuel attempt sleeps =
        ⟨some d, sleeps.reverse ++ sleepsFor b attempt k⟩ := by
  intro k
  induction k with
  | zero =>
    intro fuel attempt sleeps d hk hs _
    obtain ⟨f, rfl⟩ : ∃ f, fuel = f + 1 := ⟨fuel - 1, by omega⟩
    rw [Nat.add_zero] at hs
    simp [fetchLoop, hs, sleepsFor]
  | succ k ih =>
    intro fuel attempt sleeps d hk hs hr
    obtain ⟨f, rfl⟩ : ∃ f, fuel = f + 1 := ⟨fuel - 1, by omega⟩
    rw [fetchLoop_step α outcome b f attempt sleeps
      (by have h0 := hr 0 (by omega); simpa using h0)]
    rw [ih f (attempt + 1) (backoffTime b attempt :: sleeps) d (by omega)
      (by have hai : attempt + 1 + k = attempt + (k + 1) := by omega
          rw [hai]; exact hs)
      (fun i hi => by
        have h2 := hr (i + 1) (by omega)
        have hai : attempt + 1 + i = attempt + (i + 1) := by omega
        rw [hai]; exact h2)]
    simp [sleepsFor, List.append_assoc]

lemma fetchLoop_no_success (α : Type) (outcome : Nat → AttemptResult α) (b : Rat) :
    ∀ (fuel attempt : Nat) (sleeps : List Rat),
      (∀ i, i < fuel → ∀ d, outcome (attempt + i) ≠ AttemptResult.success d) →
      (fetchLoop α outcome b fuel attempt sleeps).value = none := by
  intro fuel
  induction fuel with
  | zero => intro attempt sleeps _; rfl
  | succ f ih =>
    intro attempt sleeps h
    cases hout : outcome attempt with
    | success p =>
      exact absurd hout (by simpa using h 0 (by omega) p)
    | httpError s =>
      by_cases hrs : retryableStatus s = true
      · rw [fetchLoop_step α outcome b f attempt sleeps
          (by rw [hout]; simpa [AttemptResult.retryableFail] using hrs)]
        exact ih (attempt + 1) _ (fun i hi d => by
          have h2 := h (i + 1) (by omega) d
          have hai : attempt + 1 + i = attempt + (i + 1) := by omega
          rw [hai]; exact h2)
      · simp [fetchLoop, hout, hrs]
    | timeout =>
      rw [fetchLoop_step α outcome b f attempt sleeps (by rw [hout]; rfl)]
      exact ih (attempt + 1) _ (fun i hi d => by
        have h2 := h (i + 1) (by omega) d
        have hai : attempt + 1 + i = attempt + (i + 1) := by omega
        rw [hai]; exact h2)
    | otherError =>
      rw [fetchLoop_step α outcome b f attempt sleeps (by rw [hout]; rfl)]
      exact ih (attempt + 1) _ (fun i hi d => by
        have h2 := h (i + 1) (by omega) d
        have hai : attempt + 1 + i = attempt + (i + 1) := by omega
        rw [hai]; exact h2)

lemma fetchLoop_break (α : Type) (outcome : Nat → AttemptResult α) (b : Rat) :
    ∀ (j : Nat), ∀ (fuel attempt : Nat) (sleeps : List Rat) (s : Nat),
      j < fuel →
      outcome (attempt + j) = AttemptResult.httpError s →
      retryableStatus s = false →
      (∀ i, i < j → (outcome (attempt + i)).retryableFail = true) →
      fetchLoop α outcome b fuel attempt sleeps =
        ⟨none, sleeps.reverse ++ sleepsFor b attempt j⟩ := by
  intro j
  induction j with
  | zero =>
    intro fuel attempt sleeps s hj hs hrs _
    obtain ⟨f, rfl⟩ : ∃ f, fuel = f + 1 := ⟨fuel - 1, by omega⟩
    rw [Nat.add_zero] at hs
    simp [fetchLoop, hs, hrs, sleepsFor]
  | succ j ih =>
    intro fuel attempt sleeps s hj hs hrs hr
    obtain ⟨f, rfl⟩ : ∃ f, fuel = f + 1 := ⟨fuel - 1, by omega⟩
    rw [fetchLoop_step α outcome b f attempt sleeps
      (by have h0 := hr 0 (by omega); simpa using h0)]
    rw [ih f (attempt + 1) (backoffTime b attempt :: sleeps) s (by omega)
      (by have hai : attempt + 1 + j = attempt + (j + 1) := by omega
          rw [hai]; exact hs)
      hrs
      (fun i hi => by
        have h2 := hr (i + 1) (by omega)
        have hai : attempt + 1 + i = attempt + (i + 1) := by omega
        rw [hai]; exact h2)]
    simp [sleepsFor, List.append_assoc]

lemma fetchLoop_all_retryable (α : Type) (outcome : Nat → AttemptResult α) (b : Rat) :
    ∀ (fuel attempt : Nat) (sleeps : List Rat),
      (∀ i, i < fuel → (outcome (attempt + i)).retryableFail = true) →
      fetchLoop α outcome b fuel attempt sleeps =
        ⟨none, sleeps.reverse ++ sleepsFor b attempt fuel⟩ := by
  intro fuel
  induction fuel with
  | zero => intro attempt sleeps _; simp [fetchLoop, sleepsFor]
  | succ f ih =>
    intro attempt sleeps h
    rw [fetchLoop_step α outcome b f attempt sleeps
      (by have h0 := h 0 (by omega); simpa using h0)]
    rw [ih (attempt + 1) _ (fun i hi => by
      have h2 := h (i + 1) (by omega)
      have hai : attempt + 1 + i = attempt + (i + 1) := by omega
      rw [hai]; exact h2)]
    simp [sleepsFor, List.append_assoc]

/-- C1: if every failing attempt before the first success fails with a
retryable condition (HTTP 429/500/502/503/504, a timeout, or any other
unexpected exception) and attempt `k < 3` succeeds with payload `d`, then
`fetch_json` returns that payload, having slept exactly once between
consecutive attempts, with `backoff_factor * 2 ^ attempt` seconds after the
failing attempt of each index. -/
theorem fetch_json_retry_success (α : Type) (outcome : Nat → AttemptResult α)
    (backoff_factor : Rat) (k : Nat) (d : α)
    (hk : k < 3)
    (hsucc : outcome k = AttemptResult.success d)
    (hfail : ∀ i, i < k → (outcome i).retryableFail = true) :
    fetch_json α outcome backoff_factor 3 =
      ⟨some d, sleepsFor backoff_factor 0 k⟩ ∧
    ∀ i, i < k →
      (sleepsFor backoff_factor 0 k)[i]? = some (backoffTime backoff_factor i) := by
  constructor
  · unfold fetch_json
    have h := fetchLoop_success α outcome backoff_factor k 3 0 [] d hk
      (by simpa using hsucc) (by simpa using hfail)
    simpa using h
  · intro i hi
    have h := sleepsFor_get backoff_factor k 0 i hi
    simpa using h

/-- Witness for C1: with attempt 0 timing out and attempt 1 succeeding with
payload 42, `fetch_json` returns 42 after one backoff sleep. -/
theorem fetch_json_retry_success_witness :
    fetch_json Nat c1Outcome (1/2) 3 = ⟨some 42, sleepsFor (1/2) 0 1⟩ :=
  (fetch_json_retry_success Nat c1Outcome (1/2) 1 42 (by decide) (by decide)
    (by decide)).1

/-- C2: when no attempt succeeds, `fetch_json` returns the empty result (the
embedding is total, so no exception reaches the caller). In particular a
non-retryable HTTP error at attempt `j` terminates the loop immediately: the
result is empty and only the `j` sleeps of the earlier retried attempts were
performed; and exhausting all 3 attempts on retryable failures also yields the
empty result, after 3 backoff sleeps. -/
theorem fetch_json_failure_empty (α : Type) (outcome : Nat → AttemptResult α)
    (backoff_factor : Rat) :
    ((∀ i, i < 3 → ∀ d, outcome i ≠ AttemptResult.success d) →
      (fetch_json α outcome backoff_factor 3).value = none) ∧
    (∀ j s, j < 3 → outcome j = AttemptResult.httpError s →
      retryableStatus s = false →
      (∀ i, i < j → (outcome i).retryableFail = true) →
      fetch_json α outcome backoff_factor 3 =
        ⟨none, sleepsFor backoff_factor 0 j⟩) ∧
    ((∀ i, i < 3 → (outcome i).retryableFail = true) →
      fetch_json α outcome backoff_factor 3 =
        ⟨none, sleepsFor backoff_factor 0 3⟩) := by
  refine ⟨?_, ?_, ?_⟩
  · intro h
    unfold fetch_json
    exact fetchLoop_no_success α outcome backoff_factor 3 0 [] (by simpa using h)
  · intro j s hj hs hrs hr
    unfold fetch_json
    have h := fetchLoop_break α outcome backoff_factor j 3 0 [] s hj
      (by simpa using hs) hrs (by simpa using hr)
    simpa using h
  · intro h
    unfold fetch_json
    have hall := fetchLoop_all_retryable α outcome backoff_factor 3 0 []
      (by simpa using h)
    simpa using hall

/-- Witness for C2: an immediate HTTP 404 yields the empty result with no
sleeps, and three consecutive timeouts yield the empty result after three
sleeps. -/
theorem fetch_json_failure_empty_witness :
    fetch_json Nat c2Outcome (1/2) 3 = ⟨none, sleepsFor (1/2) 0 0⟩ ∧
    fetch_json Nat c2bOutcome (1/2) 3 = ⟨none, sleepsFor (1/2) 0 3⟩ :=
  ⟨(fetch_json_failure_empty Nat c2Outcome (1/2)).2.1 0 404 (by decide)
      (by decide) (by decide) (by decide),
   (fetch_json_failure_empty Nat c2bOutcome (1/2)).2.2 (by decide)⟩

/-- Value of a single decimal digit character. -/
def digitVal (c : Char) : Option Nat :=
  if c.isDigit then some (c.toNat - 48) else none

/-- Parse a nonempty all-digit character run into a natural number. -/
def digitsVal (l : List Char) : Option Nat :=
  match l with
  | [] => none
  | _ =>
    l.foldl
      (fun acc c =>
        match acc, digitVal c with
        | some a, some d => some (a * 10 + d)
        | _, _ => none)
      (some 0)

/-- Decimal number parser modelling `pd.to_numeric(errors='coerce')` on a
string cell: an optional sign followed by digits with an optional fractional
part. Strings outside this form (the ones the pipeline can meet are arbitrary
junk) coerce to `none`, pandas' `NaN`. -/
def parseNumChars (l : List Char) : Option Rat :=
  let signAndRest : Rat × List Char :=
    match l with
    | '-' :: r => (-1, r)
    | '+' :: r => (1, r)
    | r => (1, r)
  let intPart := signAndRest.2.takeWhile (fun c => c ≠ '.')
  match signAndRest.2.dropWhile (fun c => c ≠ '.') with
  | [] => (digitsVal intPart).map (fun n => signAndRest.1 * n)
  | _ :: frac =>
    match digitsVal intPart, digitsVal frac with
    | some a, some f =>
      some (signAndRest.1 * ((a : Rat) + (f : Rat) / ((10 : Rat) ^ frac.length)))
    | _, _ => none

/-- `pd.to_numeric(errors='coerce')` on one Latitude/Longitude cell: numbers
pass through, strings are parsed, `None`/absent becomes `NaN` (`none`). -/
def toNumeric : JVal → Option Rat
  | .num q => some q
  | .str s => parseNumChars s.data
  | .null => none

/-- A row of the per-city output file: the projected columns of `main`
(src/desenvolvimento.py:324-340), with the coerced numeric coordinates and the
attached `CompanySize`. -/
structure OutRecord where
  placeID : String
  name : String
  address : String
  neighborhood : String
  street : String
  city : String
  rating : Rat
  userRatingsTotal : Int
  phone : String
  types : String
  category : String
  latitude : Option Rat
  longitude : Option Rat
  socialLinks : List String
  companySize : String
  deriving DecidableEq

/-- Turn one collected record into its output row: attach
`classify_company_size` of `UserRatingsTotal` and coerce the coordinates. -/
def toOutRecord (r : PharmacyData) : OutRecord :=
  { placeID := r.placeID, name := r.name, address := r.address,
    neighborhood := r.neighborhood, street := r.street, city := r.city,
    rating := r.rating, userRatingsTotal := r.userRatingsTotal,
    phone := r.phone, types := r.types, category := r.category,
    latitude := toNumeric r.latitude, longitude := toNumeric r.longitude,
    socialLinks := r.socialLinks,
    companySize := classify_company_size (some r.userRatingsTotal) }

/-- `drop_duplicates(subset=['Name', 'Address'])`: keep the first record of
each (Name, Address) pair, `seen` holding the pairs already kept. -/
def dropDupAux (seen : List (String × String)) : List PharmacyData → List PharmacyData
  | [] => []
  | r :: rs =>
    if (r.name, r.address) ∈ seen then dropDupAux seen rs
    else r :: dropDupAux ((r.name, r.address) :: seen) rs

/-- `df.drop_duplicates(subset=['Name', 'Address'])` from an empty seen set. -/
def dropDupNameAddr (l : List PharmacyData) : List PharmacyData :=
  dropDupAux [] l

/-- Shallow embedding of the per-city persistence pipeline of `main`
(src/desenvolvimento.py:318-353): drop duplicate (Name, Address) rows, attach
the size classification, project the columns, coerce Latitude and Longitude
with `pd.to_numeric(errors='coerce')` and drop every row where either is
missing (`dropna`). -/
def saveCity (recs : List PharmacyData) : List OutRecord :=
  ((dropDupNameAddr recs).map toOutRecord).filter
    (fun o => o.latitude.isSome && o.longitude.isSome)

/-- Witness record with numeric coordinates. -/
def recGood : PharmacyData :=
  { recB with
    placeID := "g"
    name := "G"
    latitude := JVal.num 1
    longitude := JVal.num 2 }

/-- Witness record with an unparsable latitude. -/
def recBad : PharmacyData :=
  { recB with
    placeID := "b"
    name := "Bad"
    latitude := JVal.str "x"
    longitude := JVal.num 2 }

/-- Witness details object with a two-segment formatted address. -/
def detAddr : Details :=
  { formatted_address := some "Rua A, Centro" }

/-- The record `process_pharmacy` assembles from `detAddr`. -/
def recAddr : PharmacyData :=
  { placeID := "p9", name := "N/A", address := "Rua A, Centro",
    neighborhood := "Centro", street := "Rua A", city := "N/A", rating := 0,
    userRatingsTotal := 0, phone := "N/A", types := "", category := "Farmácia",
    latitude := JVal.null, longitude := JVal.null, socialLinks := [] }

/-- Counterexample details object: the formatted address starts with a literal
`N/A` segment. -/
def detNA : Details :=
  { name := some "X", formatted_address := some "N/A, Centro, SP" }

/-- The record `process_pharmacy` assembles from `detNA`: its Street field is
the literal string `N/A` even though the route component was assigned. -/
def recNA : PharmacyData :=
  { placeID := "p0", name := "X", address := "N/A, Centro, SP",
    neighborhood := "Centro", street := "N/A", city := "SP", rating := 0,
    userRatingsTotal := 0, phone := "N/A", types := "", category := "Farmácia",
    latitude := JVal.null, longitude := JVal.null, socialLinks := [] }

/-- Characters Python's regex `\w` matches on the ASCII strings reaching the
punctuation strip of `normalize_name` (the string is ASCII-folded first). -/
def isWordChar (c : Char) : Bool :=
  c.isAlpha || c.isDigit || c = '_'

/-- One character of `unicodedata.normalize('NFKD', name).encode('ASCII',
'ignore')`: ASCII characters pass through; Latin letters with an ASCII base
letter decompose to that base letter (their combining mark is dropped by the
ASCII encode); any other non-ASCII character has no ASCII decomposition and is
dropped. -/
def asciiFoldChar (c : Char) : List Char :=
  if c.toNat < 128 then [c]
  else
    match c with
    | 'À' | 'Á' | 'Â' | 'Ã' | 'Ä' | 'Å' => ['A']
    | 'Ç' => ['C']
    | 'È' | 'É' | 'Ê' | 'Ë' => ['E']
    | 'Ì' | 'Í' | 'Î' | 'Ï' => ['I']
    | 'Ñ' => ['N']
    | 'Ò' | 'Ó' | 'Ô' | 'Õ' | 'Ö' => ['O']
    | 'Ù' | 'Ú' | 'Û' | 'Ü' => ['U']
    | 'Ý' => ['Y']
    | 'à' | 'á' | 'â' | 'ã' | 'ä' | 'å' => ['a']
    | 'ç' => ['c']
    | 'è' | 'é' | 'ê' | 'ë' => ['e']
    | 'ì' | 'í' | 'î' | 'ï' => ['i']
    | 'ñ' => ['n']
    | 'ò' | 'ó' | 'ô' | 'õ' | 'ö' => ['o']
    | 'ù' | 'ú' | 'û' | 'ü' => ['u']
    | 'ý' | 'ÿ' => ['y']
    | _ => []

/-- NFKD-then-ASCII-encode over a whole character list. -/
def asciiFold (l : List Char) : List Char :=
  (l.map asciiFoldChar).flatten

/-- The alternation `Ltda\.|Ltda|EIRELI|S\/A|SA|Limited|Ltd` of
`normalize_name`, in regex alternation order. -/
def suffixTokens : List (List Char) :=
  ["Ltda.".data, "Ltda".data, "EIRELI".data, "S/A".data, "SA".data,
   "Limited".data, "Ltd".data]

/-- Case-insensitive match of a token against the front of the input. -/
def ciMatch : List Char → List Char → Bool
  | [], _ => true
  | _ :: _, [] => false
  | t :: ts, c :: cs => (t.toLower == c.toLower) && ciMatch ts cs

/-- The regex `\b` before a token: every alternation token starts with a word
character, so the boundary holds exactly when the previous character is absent
or not a word character. -/
def boundaryBefore (prev : Option Char) : Bool :=
  match prev with
  | none => true
  | some c => !(isWordChar c)

/-- The regex `\b` after a token whose last character is `tokLast`: at end of
input the boundary holds when `tokLast` is a word character; otherwise the two
neighbours must differ in wordness. -/
def boundaryAfter (tokLast : Char) (next : Option Char) : Bool :=
  match next with
  | none => isWordChar tokLast
  | some c => isWordChar tokLast != isWordChar c

/-- First alternation token matching at the front of `l` with its trailing
boundary satisfied (the leading boundary is checked by the caller). -/
def findTok (l : List Char) : Option (List Char) :=
  suffixTokens.find? (fun tok =>
    ciMatch tok l && boundaryAfter (tok.getLastD ' ') ((l.drop tok.length).head?))

/-- The scan of `re.sub(r'\b(Ltda\.|Ltda|EIRELI|S\/A|SA|Limited|Ltd)\b', '',
name, flags=re.IGNORECASE)`: walk left to right, tracking the previous input
character for the leading boundary; on a match drop the matched token and
continue after it, otherwise keep the character. `fuel` bounds the recursion
structurally; every step consumes at least one character, so starting the fuel
at the input length never exhausts it. -/
def subSuffixesFuel : Nat → Option Char → List Char → List Char
  | 0, _, l => l
  | _ + 1, _, [] => []
  | fuel + 1, prev, c :: cs =>
    match (if boundaryBefore prev then findTok (c :: cs) else none) with
    | some tok =>
      subSuffixesFuel fuel (some (tok.getLastD ' ')) (cs.drop (tok.length - 1))
    | none => c :: subSuffixesFuel fuel (some c) cs

/-- The legal-suffix removal pass of `normalize_name`. -/
def subSuffixes (l : List Char) : List Char :=
  subSuffixesFuel l.length none l

/-- The punctuation strip `re.sub(r'[^\w\s]', '', name)`: keep word characters
and whitespace only. -/
def stripPunct (l : List Char) : List Char :=
  l.filter (fun c => isWordChar c || isPyWs c)

/-- The whitespace collapse `re.sub(r'\s+', ' ', name)`: replace every
whitespace run with a single space. -/
def squeezeWs : List Char → List Char
  | [] => []
  | c :: cs =>
    if isPyWs c then
      if (squeezeWs cs).head? = some ' ' then squeezeWs cs
      else ' ' :: squeezeWs cs
    else c :: squeezeWs cs

/-- Shallow embedding of `normalize_name` (src/desenvolvimento.py:78-85):
empty (falsy) input returns the empty string; otherwise fold to ASCII, remove
the legal-suffix tokens, strip punctuation, collapse whitespace and strip the
ends. -/
def normalize_name (name : String) : String :=
  if name = "" then ""
  else ⟨trimChars (squeezeWs (stripPunct (subSuffixes (asciiFold name.data))))⟩

/-- Whether a character list is the plain occurrence of `pat` at its front. -/
def seqAt : List Char → List Char → Bool
  | [], _ => true
  | _ :: _, [] => false
  | p :: ps, c :: cs => (p == c) && seqAt ps cs

/-- Whether `pat` occurs contiguously anywhere in the list. -/
def containsSeq (pat : List Char) : List Char → Bool
  | [] => seqAt pat []
  | c :: cs => seqAt pat (c :: cs) || containsSeq pat cs

/-- No two adjacent whitespace characters. -/
def noTwoSpaces : List Char → Bool
  | a :: b :: rest => (!(isPyWs a && isPyWs b)) && noTwoSpaces (b :: rest)
  | _ => true

/-- Neither end of the list is whitespace. -/
def noEdgeWs (l : List Char) : Bool :=
  (l.head?.all fun c => !isPyWs c) && (l.getLast?.all fun c => !isPyWs c)

lemma mem_setAdd (s : List String) (x p : String) :
    p ∈ setAdd s x ↔ p ∈ s ∨ p = x := by
  unfold setAdd
  by_cases h : x ∈ s
  · rw [if_pos h]
    constructor
    · exact Or.inl
    · rintro (hp | rfl)
      · exact hp
      · exact h
  · rw [if_neg h]
    simp [List.mem_append]

lemma mem_newPlaceIds_aux (processed : List String) :
    ∀ (cands acc : List String) (p : String),
      p ∈ cands.foldl (fun acc q => if q ∈ processed then acc else setAdd acc q) acc ↔
        p ∈ acc ∨ (p ∈ cands ∧ p ∉ processed) := by
  intro cands
  induction cands with
  | nil => intro acc p; simp
  | cons c cs ih =>
    intro acc p
    rw [List.foldl_cons, ih]
    by_cases hc : c ∈ processed
    · rw [if_pos hc]
      constructor
      · rintro (h | h)
        · exact Or.inl h
        · exact Or.inr ⟨List.mem_cons_of_mem c h.1, h.2⟩
      · rintro (h | ⟨hmem, hnp⟩)
        · exact Or.inl h
        · rcases List.mem_cons.mp hmem with rfl | h2
          · exact absurd hc hnp
          · exact Or.inr ⟨h2, hnp⟩
    · rw [if_neg hc]
      rw [mem_setAdd]
      constructor
      · rintro ((h | rfl) | ⟨h2, hnp⟩)
        · exact Or.inl h
        · exact Or.inr ⟨List.mem_cons_self _ _, hc⟩
        · exact Or.inr ⟨List.mem_cons_of_mem c h2, hnp⟩
      · rintro (h | ⟨hmem, hnp⟩)
        · exact Or.inl (Or.inl h)
        · rcases List.mem_cons.mp hmem with rfl | h2
          · exact Or.inl (Or.inr rfl)
          · exact Or.inr ⟨h2, hnp⟩

lemma mem_newPlaceIds (cands processed : List String) (p : String) :
    p ∈ newPlaceIds cands processed ↔ p ∈ cands ∧ p ∉ processed := by
  unfold newPlaceIds
  rw [mem_newPlaceIds_aux]
  simp

lemma mem_foldl_setAdd (recs : List PharmacyData) :
    ∀ (s : List String) (p : String),
      p ∈ recs.foldl (fun s c => setAdd s c.placeID) s ↔
        p ∈ s ∨ p ∈ recs.map PharmacyData.placeID := by
  induction recs with
  | nil => intro s p; simp
  | cons r rs ih =>
    intro s p
    rw [List.foldl_cons, ih, mem_setAdd]
    simp [List.map_cons, List.mem_cons, or_assoc]

lemma subset_foldl_setAdd (recs : List PharmacyData) (s : List String) :
    s ⊆ recs.foldl (fun s c => setAdd s c.placeID) s := by
  intro p hp
  rw [mem_foldl_setAdd]
  exact Or.inl hp

lemma collectArea_eq_none (env : PipelineEnv) (processed : List String) (city : String)
    (h : newPlaceIds (env.candidates city) processed = []) :
    collectArea env processed city = none := by
  unfold collectArea
  rw [if_pos h]

lemma collectArea_some_inv (env : PipelineEnv) (processed : List String) (city : String)
    (recs : List PharmacyData) (p' : List String)
    (h : collectArea env processed city = some (recs, p')) :
    recs = areaRecs env processed city ∧
    p' = recs.foldl (fun s c => setAdd s c.placeID) processed ∧
    newPlaceIds (env.candidates city) processed ≠ [] := by
  unfold collectArea at h
  by_cases hn : newPlaceIds (env.candidates city) processed = []
  · rw [if_pos hn] at h
    exact absurd h (by simp)
  · rw [if_neg hn] at h
    injection h with h1
    injection h1 with ha hb
    refine ⟨ha.symm, ?_, hn⟩
    rw [ha] at hb
    exact hb.symm

lemma mem_areaRecs (env : PipelineEnv) (processed : List String) (city : String)
    (r : PharmacyData) :
    r ∈ areaRecs env processed city ↔
      ∃ pid ∈ newPlaceIds (env.candidates city) processed,
        process_pharmacy env.cfg pid city (env.detailsResp pid) = some r := by
  unfold areaRecs
  simp [List.mem_filterMap, List.mem_map]

lemma process_pharmacy_placeID (cfg : SocialCfg) (pid city : String)
    (resp : DetailsResp) (r : PharmacyData)
    (h : process_pharmacy cfg pid city resp = some r) :
    r.placeID = pid := by
  simp only [process_pharmacy] at h
  by_cases he : (get_company_details resp).isEmpty = true
  · rw [if_pos he] at h
    exact absurd h (by simp)
  · rw [if_neg he] at h
    injection h with h1
    rw [← h1]

lemma foldl_run_inv {σ β : Type} (step : σ → β → σ) (P : σ → Prop) :
    ∀ (l : List β) (st : σ), P st → (∀ st b, P st → P (step st b)) →
      P (l.foldl step st) := by
  intro l
  induction l with
  | nil => intro st h0 _; exact h0
  | cons b bs ih => intro st h0 hstep; exact ih (step st b) (hstep st b h0) hstep

lemma collectStep_processed_subset (env : PipelineEnv) (st : RunState) (city : String) :
    st.processed ⊆ (collectStep env st city).processed := by
  unfold collectStep
  cases hca : collectArea env st.processed city with
  | none => exact List.Subset.refl _
  | some pr =>
    obtain ⟨recs, p'⟩ := pr
    obtain ⟨hrecs, hp', hne⟩ := collectArea_some_inv env st.processed city recs p' hca
    show st.processed ⊆ p'
    rw [hp']
    exact subset_foldl_setAdd recs st.processed

/-- C4: within a single run the in-memory processed-id set only grows: every
city step maps the set to one of its supersets (so no identifier is ever
removed), and each persisted snapshot of the run contains every identifier
present in every earlier snapshot. -/
theorem processed_set_monotone :
    (∀ (env : PipelineEnv) (st : RunState) (city : String),
      st.processed ⊆ (collectStep env st city).processed) ∧
    (∀ (env : PipelineEnv) (cities : List String) (processed0 : List String)
      (i j : Fin (collect_data env cities processed0).snapshots.length),
      i ≤ j →
      (collect_data env cities processed0).snapshots.get i ⊆
        (collect_data env cities processed0).snapshots.get j) := by
  constructor
  · exact collectStep_processed_subset
  · intro env cities processed0 i j hij
    have key : List.Pairwise (· ⊆ ·) (collect_data env cities processed0).snapshots ∧
        ∀ s ∈ (collect_data env cities processed0).snapshots,
          s ⊆ (collect_data env cities processed0).processed := by
      unfold collect_data
      apply foldl_run_inv (collectStep env)
        (fun st => List.Pairwise (· ⊆ ·) st.snapshots ∧
          ∀ s ∈ st.snapshots, s ⊆ st.processed)
      · exact ⟨List.Pairwise.nil, by simp⟩
      · intro st city hP
        obtain ⟨hpw, hsub⟩ := hP
        have hmono := collectStep_processed_subset env st city
        unfold collectStep
        unfold collectStep at hmono
        cases hca : collectArea env st.processed city with
        | none => exact ⟨hpw, hsub⟩
        | some pr =>
          obtain ⟨recs, p'⟩ := pr
          rw [hca] at hmono
          constructor
          · show List.Pairwise (· ⊆ ·) (st.snapshots ++ [p'])
            rw [List.pairwise_append]
            refine ⟨hpw, by simp, ?_⟩
            intro a ha b hb
            rw [List.mem_singleton] at hb
            subst hb
            exact List.Subset.trans (hsub a ha) hmono
          · intro s hs
            show s ⊆ p'
            rcases List.mem_append.mp hs with h1 | h2
            · exact List.Subset.trans (hsub s h1) hmono
            · rw [List.mem_singleton] at h2
              subst h2
              exact List.Subset.refl _
    rcases lt_or_eq_of_le hij with hlt | heq
    · exact List.pairwise_iff_get.mp key.1 i j hlt
    · rw [heq]
      exact List.Subset.refl _

/-- Witness for C4: under `envC`, one step from the state with processed set
`["p0"]` grows the set, and the single snapshot of the run from the empty set
contains itself. -/
theorem processed_set_monotone_witness :
    (⟨[], ["p0"], []⟩ : RunState).processed ⊆
      (collectStep envC ⟨[], ["p0"], []⟩ "c").processed ∧
    (collect_data envC ["c"] []).snapshots.get ⟨0, by decide⟩ ⊆
      (collect_data envC ["c"] []).snapshots.get ⟨0, by decide⟩ :=
  ⟨processed_set_monotone.1 envC ⟨[], ["p0"], []⟩ "c",
   processed_set_monotone.2 envC ["c"] [] ⟨0, by decide⟩ ⟨0, by decide⟩ (le_refl _)⟩

lemma collect_data_fresh (env : PipelineEnv) (cities : List String)
    (base : List String) :
    base ⊆ (collect_data env cities base).processed ∧
    ∀ pr ∈ (collect_data env cities base).companies, ∀ r ∈ pr.2,
      r.placeID ∉ base := by
  unfold collect_data
  refine foldl_run_inv (collectStep env)
    (fun st => base ⊆ st.processed ∧
      ∀ pr ∈ st.companies, ∀ r ∈ pr.2, r.placeID ∉ base)
    cities ⟨[], base, []⟩ ⟨List.Subset.refl _, by simp⟩ ?_
  intro st city2 hP
  obtain ⟨hsub, hcomp⟩ := hP
  have hmono := collectStep_processed_subset env st city2
  unfold collectStep
  unfold collectStep at hmono
  cases hca : collectArea env st.processed city2 with
  | none => exact ⟨hsub, hcomp⟩
  | some pr =>
    obtain ⟨recs2, p'⟩ := pr
    rw [hca] at hmono
    obtain ⟨hrecs2, hp', hne⟩ :=
      collectArea_some_inv env st.processed city2 recs2 p' hca
    constructor
    · exact List.Subset.trans hsub hmono
    · intro pr2 hpr2 r2 hr2
      by_cases hemp : recs2 = []
      · rw [hemp] at hpr2
        simp only [if_pos rfl] at hpr2
        exact hcomp pr2 hpr2 r2 hr2
      · simp only [if_neg hemp] at hpr2
        rcases List.mem_append.mp hpr2 with h1 | h2
        · exact hcomp pr2 h1 r2 hr2
        · rw [List.mem_singleton] at h2
          subst h2
          rw [hrecs2, mem_areaRecs] at hr2
          obtain ⟨pid, hpid, hproc⟩ := hr2
          rw [process_pharmacy_placeID env.cfg pid city2
            (env.detailsResp pid) r2 hproc]
          rw [mem_newPlaceIds] at hpid
          intro hcon
          exact hpid.2 (hsub hcon)

/-- C3: with the processed-id set persisted by a first run loaded at the start
of a second run over the same upstream data: every id of the loaded set is
excluded from the detail-fetch set of every area (also against any grown
superset of the loaded set); an area whose unseen-id set is empty is skipped,
leaving the run state untouched (no detail results, no snapshot write); and no
record collected by the second run carries a previously-seen id. -/
theorem second_run_no_reprocessing (env : PipelineEnv) (cities : List String)
    (processed0 : List String) :
    (∀ st : List String, (collect_data env cities processed0).processed ⊆ st →
      ∀ city p, p ∈ (collect_data env cities processed0).processed →
        p ∉ newPlaceIds (env.candidates city) st) ∧
    (∀ (st : RunState) (city : String),
      newPlaceIds (env.candidates city) st.processed = [] →
      collectStep env st city = st) ∧
    (∀ city recs,
      (city, recs) ∈ (collect_data env cities
        (collect_data env cities processed0).processed).companies →
      ∀ r ∈ recs, r.placeID ∉ (collect_data env cities processed0).processed) := by
  refine ⟨?_, ?_, ?_⟩
  · intro st hsub city p hp hmem
    rw [mem_newPlaceIds] at hmem
    exact hmem.2 (hsub hp)
  · intro st city h
    unfold collectStep
    rw [collectArea_eq_none env st.processed city h]
  · intro city recs hmem r hr
    exact (collect_data_fresh env cities
      (collect_data env cities processed0).processed).2 (city, recs) hmem r hr

/-- Witness for C3: under `envC`, the first run from the empty set processes
`p2`; the loaded set then excludes `p2` from the second run's detail-fetch
set, and a state already containing both candidates is left untouched. -/
theorem second_run_no_reprocessing_witness :
    ("p2" : String) ∉
      newPlaceIds (envC.candidates "c") (collect_data envC ["c"] []).processed ∧
    collectStep envC ⟨[], ["p1", "p2"], []⟩ "c" = ⟨[], ["p1", "p2"], []⟩ :=
  ⟨(second_run_no_reprocessing envC ["c"] []).1 _ (List.Subset.refl _) "c" "p2"
      (by decide),
   (second_run_no_reprocessing envC ["c"] []).2.1 ⟨[], ["p1", "p2"], []⟩ "c"
      (by decide)⟩

/-- C5: within one area batch, an id whose details response lacks the `result`
field yields no record from `process_pharmacy`, appears in no collected record
of the area and is not added to the processed set; every sibling id of the
batch whose processing succeeds still has its record collected and its id
added to the processed set. -/
theorem missing_result_drops_entity (env : PipelineEnv) (processed : List String)
    (city : String) (recs : List PharmacyData) (p' : List String) (pid : String)
    (h : collectArea env processed city = some (recs, p'))
    (hresp : env.detailsResp pid = DetailsResp.noResult) :
    process_pharmacy env.cfg pid city (env.detailsResp pid) = none ∧
    (∀ r ∈ recs, r.placeID ≠ pid) ∧
    (pid ∉ processed → pid ∉ p') ∧
    (∀ q ∈ newPlaceIds (env.candidates city) processed, ∀ r,
      process_pharmacy env.cfg q city (env.detailsResp q) = some r →
      r ∈ recs ∧ q ∈ p') := by
  obtain ⟨hrecs, hp', -⟩ := collectArea_some_inv env processed city recs p' h
  have hnone : process_pharmacy env.cfg pid city (env.detailsResp pid) = none := by
    rw [hresp]
    rfl
  have hnotin : ∀ r ∈ recs, r.placeID ≠ pid := by
    intro r hr heq
    rw [hrecs, mem_areaRecs] at hr
    obtain ⟨q, hq, hproc⟩ := hr
    have hq' : q = pid := by
      rw [← process_pharmacy_placeID env.cfg q city (env.detailsResp q) r hproc, heq]
    rw [hq', hnone] at hproc
    exact Option.noConfusion hproc
  refine ⟨hnone, hnotin, ?_, ?_⟩
  · intro hpid hmem
    rw [hp', mem_foldl_setAdd] at hmem
    rcases hmem with h1 | h2
    · exact hpid h1
    · rw [List.mem_map] at h2
      obtain ⟨r, hr, hre⟩ := h2
      exact hnotin r hr hre
  · intro q hq r hproc
    have hrin : r ∈ recs := by
      rw [hrecs, mem_areaRecs]
      exact ⟨q, hq, hproc⟩
    refine ⟨hrin, ?_⟩
    rw [hp', mem_foldl_setAdd]
    right
    rw [List.mem_map]
    exact ⟨r, hrin, process_pharmacy_placeID env.cfg q city (env.detailsResp q) r hproc⟩

/-- Witness for C5: under `envC`, the batch for city `c` is `[p1, p2]`; `p1`
has no `result` field, so it yields no record, and `p1` stays out of the
updated processed set `["p2"]`. -/
theorem missing_result_drops_entity_witness :
    process_pharmacy envC.cfg "p1" "c" (envC.detailsResp "p1") = none ∧
    ("p1" : String) ∉ (["p2"] : List String) := by
  have h := missing_result_drops_entity envC [] "c" [recB] ["p2"] "p1"
    (by decide) (by decide)
  exact ⟨h.1, h.2.2.1 (by decide)⟩

lemma splitChar_ne_nil (sep : Char) : ∀ l : List Char, splitChar sep l ≠ [] := by
  intro l
  cases l with
  | nil => simp [splitChar]
  | cons c cs =>
    simp only [splitChar]
    by_cases h : c = sep
    · simp [h]
    · rw [if_neg h]
      cases hr : splitChar sep cs with
      | nil => simp
      | cons w ws => simp

lemma pySplit_ne_nil (s : String) (sep : Char) : pySplit s sep ≠ [] := by
  unfold pySplit
  intro h
  exact splitChar_ne_nil sep s.data (List.map_eq_nil_iff.mp h)

lemma process_pharmacy_fields (cfg : SocialCfg) (pid city : String)
    (resp : DetailsResp) (r : PharmacyData)
    (h : process_pharmacy cfg pid city resp = some r) :
    r.address = (get_company_details resp).formatted_address.getD "" ∧
    r.street = (((pySplit r.address ',').get? 0).map pyStrip).getD "N/A" ∧
    r.neighborhood = (((pySplit r.address ',').get? 1).map pyStrip).getD "N/A" ∧
    r.city = (((pySplit r.address ',').get? 2).map pyStrip).getD "N/A" := by
  simp only [process_pharmacy] at h
  by_cases he : (get_company_details resp).isEmpty = true
  · rw [if_pos he] at h
    exact absurd h (by simp)
  · rw [if_neg he] at h
    injection h with h1
    rw [← h1]
    exact ⟨rfl, rfl, rfl, rfl⟩

lemma mem_stripPunct (l : List Char) (c : Char) (h : c ∈ stripPunct l) :
    (isWordChar c || isPyWs c) = true ∧ c ∈ l := by
  unfold stripPunct at h
  rw [List.mem_filter] at h
  exact ⟨h.2, h.1⟩

lemma mem_squeezeWs : ∀ (l : List Char) (c : Char), c ∈ squeezeWs l →
    c = ' ' ∨ (c ∈ l ∧ isPyWs c = false) := by
  intro l
  induction l with
  | nil => intro c h; simp [squeezeWs] at h
  | cons a cs ih =>
    intro c h
    simp only [squeezeWs] at h
    by_cases ha : isPyWs a = true
    · rw [if_pos ha] at h
      by_cases hh : (squeezeWs cs).head? = some ' '
      · rw [if_pos hh] at h
        rcases ih c h with h1 | h2
        · exact Or.inl h1
        · exact Or.inr ⟨List.mem_cons_of_mem a h2.1, h2.2⟩
      · rw [if_neg hh] at h
        rcases List.mem_cons.mp h with rfl | h2
        · exact Or.inl rfl
        · rcases ih c h2 with h1 | h3
          · exact Or.inl h1
          · exact Or.inr ⟨List.mem_cons_of_mem a h3.1, h3.2⟩
    · rw [if_neg ha] at h
      rcases List.mem_cons.mp h with rfl | h2
      · refine Or.inr ⟨List.mem_cons_self _ _, ?_⟩
        simpa using ha
      · rcases ih c h2 with h1 | h3
        · exact Or.inl h1
        · exact Or.inr ⟨List.mem_cons_of_mem a h3.1, h3.2⟩

lemma squeezeWs_ws_space (l : List Char) (c : Char) (h : c ∈ squeezeWs l)
    (hws : isPyWs c = true) : c = ' ' := by
  rcases mem_squeezeWs l c h with h1 | h2
  · exact h1
  · rw [h2.2] at hws
    exact Bool.noConfusion hws

lemma head?_mem_list (l : List Char) (a : Char) (h : l.head? = some a) : a ∈ l := by
  cases l with
  | nil => exact absurd h (by simp)
  | cons b bs =>
    rw [List.head?_cons] at h
    injection h with h1
    rw [← h1]
    exact List.mem_cons_self b bs

lemma noTwoSpaces_tail (a : Char) (l : List Char)
    (h : noTwoSpaces (a :: l) = true) : noTwoSpaces l = true := by
  cases l with
  | nil => rfl
  | cons b bs =>
    simp only [noTwoSpaces, Bool.and_eq_true] at h
    exact h.2

lemma noTwoSpaces_cons_of (a : Char) (l : List Char)
    (hl : noTwoSpaces l = true)
    (hcond : isPyWs a = false ∨ ∀ b, l.head? = some b → isPyWs b = false) :
    noTwoSpaces (a :: l) = true := by
  cases l with
  | nil => rfl
  | cons b bs =>
    simp only [noTwoSpaces, Bool.and_eq_true]
    refine ⟨?_, hl⟩
    rcases hcond with h1 | h2
    · simp [h1]
    · have hb := h2 b (by rw [List.head?_cons])
      simp [hb]

lemma squeezeWs_noTwo : ∀ l : List Char, noTwoSpaces (squeezeWs l) = true := by
  intro l
  induction l with
  | nil => rfl
  | cons a cs ih =>
    simp only [squeezeWs]
    by_cases ha : isPyWs a = true
    · rw [if_pos ha]
      by_cases hh : (squeezeWs cs).head? = some ' '
      · rw [if_pos hh]
        exact ih
      · rw [if_neg hh]
        apply noTwoSpaces_cons_of ' ' _ ih
        right
        intro b hb
        by_cases hwb : isPyWs b = true
        · have hb' := squeezeWs_ws_space cs b (head?_mem_list _ _ hb) hwb
          rw [hb'] at hb
          exact absurd hb hh
        · simpa using hwb
    · rw [if_neg ha]
      apply noTwoSpaces_cons_of a _ ih
      left
      simpa using ha

lemma trimTrailing_append (l : List Char) : ∃ t, trimTrailing l ++ t = l := by
  induction l with
  | nil => exact ⟨[], rfl⟩
  | cons c cs ih =>
    simp only [trimTrailing]
    by_cases hr : trimTrailing cs = []
    · rw [if_pos hr]
      by_cases hc : isPyWs c = true
      · rw [if_pos hc]
        exact ⟨c :: cs, rfl⟩
      · rw [if_neg hc]
        exact ⟨cs, rfl⟩
    · rw [if_neg hr]
      obtain ⟨t, ht⟩ := ih
      exact ⟨t, by rw [List.cons_append, ht]⟩

lemma trimTrailing_getLast? : ∀ (l : List Char) (c : Char),
    (trimTrailing l).getLast? = some c → isPyWs c = false := by
  intro l
  induction l with
  | nil => intro c h; exact absurd h (by simp [trimTrailing])
  | cons a cs ih =>
    intro c h
    simp only [trimTrailing] at h
    by_cases hr : trimTrailing cs = []
    · rw [if_pos hr] at h
      by_cases ha : isPyWs a = true
      · rw [if_pos ha] at h
        exact absurd h (by simp)
      · rw [if_neg ha] at h
        simp only [List.getLast?_singleton] at h
        injection h with h1
        rw [← h1]
        simpa using ha
    · rw [if_neg hr] at h
      obtain ⟨w, ws, hw⟩ := List.exists_cons_of_ne_nil hr
      rw [hw, List.getLast?_cons_cons] at h
      apply ih c
      rw [hw]
      exact h

lemma trimTrailing_head? (l : List Char) (c : Char) (hc : isPyWs c = false) :
    (trimTrailing (c :: l)).head? = some c := by
  simp only [trimTrailing]
  by_cases hr : trimTrailing l = []
  · rw [if_pos hr, if_neg (by simp [hc])]
    rfl
  · rw [if_neg hr]
    rfl

lemma mem_dropWhile (p : Char → Bool) : ∀ (l : List Char) (c : Char),
    c ∈ l.dropWhile p → c ∈ l := by
  intro l
  induction l with
  | nil => intro c h; simp at h
  | cons a as ih =>
    intro c h
    by_cases ha : p a = true
    · simp only [List.dropWhile, ha] at h
      exact List.mem_cons_of_mem a (ih c h)
    · have ha' : p a = false := by simpa using ha
      simp only [List.dropWhile, ha'] at h
      exact h

lemma noTwoSpaces_dropWhile (p : Char → Bool) : ∀ l : List Char,
    noTwoSpaces l = true → noTwoSpaces (l.dropWhile p) = true := by
  intro l
  induction l with
  | nil => intro h; exact h
  | cons a as ih =>
    intro h
    by_cases ha : p a = true
    · simp only [List.dropWhile, ha]
      exact ih (noTwoSpaces_tail a as h)
    · have ha' : p a = false := by simpa using ha
      simp only [List.dropWhile, ha']
      exact h

lemma noTwoSpaces_append_left : ∀ l₁ l₂ : List Char,
    noTwoSpaces (l₁ ++ l₂) = true → noTwoSpaces l₁ = true := by
  intro l₁
  induction l₁ with
  | nil => intro l₂ _; rfl
  | cons a as ih =>
    intro l₂ h
    cases as with
    | nil => rfl
    | cons b bs =>
      simp only [List.cons_append] at h
      simp only [noTwoSpaces, Bool.and_eq_true] at h ⊢
      refine ⟨h.1, ih l₂ ?_⟩
      rw [List.cons_append]
      exact h.2

lemma noTwoSpaces_trimTrailing (l : List Char) (h : noTwoSpaces l = true) :
    noTwoSpaces (trimTrailing l) = true := by
  obtain ⟨t, ht⟩ := trimTrailing_append l
  apply noTwoSpaces_append_left _ t
  rw [ht]
  exact h

lemma dropWhile_head?_not (p : Char → Bool) : ∀ (l : List Char) (c : Char),
    (l.dropWhile p).head? = some c → p c = false := by
  intro l
  induction l with
  | nil => intro c h; exact absurd h (by simp)
  | cons a as ih =>
    intro c h
    by_cases ha : p a = true
    · simp only [List.dropWhile, ha] at h
      exact ih c h
    · have ha' : p a = false := by simpa using ha
      simp only [List.dropWhile, ha'] at h
      rw [List.head?_cons] at h
      injection h with h1
      rw [← h1]
      exact ha'

lemma trimTrailing_head?_not (x : List Char) (c : Char)
    (hx : ∀ w, x.head? = some w → isPyWs w = false)
    (h : (trimTrailing x).head? = some c) : isPyWs c = false := by
  cases x with
  | nil => exact absurd h (by simp [trimTrailing])
  | cons w ws =>
    have hw : isPyWs w = false := hx w (by rw [List.head?_cons])
    rw [trimTrailing_head? ws w hw] at h
    injection h with h1
    rw [← h1]
    exact hw

lemma trimChars_noEdge (l : List Char) : noEdgeWs (trimChars l) = true := by
  unfold noEdgeWs trimChars
  rw [Bool.and_eq_true]
  constructor
  · cases hh : (trimTrailing (l.dropWhile isPyWs)).head? with
    | none => rfl
    | some c =>
      have hc := trimTrailing_head?_not (l.dropWhile isPyWs) c
        (fun w hw => dropWhile_head?_not isPyWs l w hw) hh
      simp [Option.all, hc]
  · cases hg : (trimTrailing (l.dropWhile isPyWs)).getLast? with
    | none => rfl
    | some c =>
      have hc := trimTrailing_getLast? (l.dropWhile isPyWs) c hg
      simp [Option.all, hc]

lemma mem_trimChars (l : List Char) (c : Char) (h : c ∈ trimChars l) : c ∈ l := by
  unfold trimChars at h
  obtain ⟨t, ht⟩ := trimTrailing_append (l.dropWhile isPyWs)
  have h2 : c ∈ l.dropWhile isPyWs := by
    rw [← ht]
    exact List.mem_append_left t h
  exact mem_dropWhile isPyWs l c h2

/-- C7: in the saved output of an area, every row has both coordinates
numeric; a record surviving the duplicate-(Name, Address) drop whose
coordinates both coerce to numbers is retained; and a record whose latitude or
longitude is missing or unparsable is excluded from the output. -/
theorem coordinate_filter (recs : List PharmacyData) :
    (∀ o ∈ saveCity recs, o.latitude.isSome = true ∧ o.longitude.isSome = true) ∧
    (∀ r ∈ dropDupNameAddr recs,
      (toNumeric r.latitude).isSome = true → (toNumeric r.longitude).isSome = true →
      toOutRecord r ∈ saveCity recs) ∧
    (∀ r ∈ dropDupNameAddr recs,
      toNumeric r.latitude = none ∨ toNumeric r.longitude = none →
      toOutRecord r ∉ saveCity recs) := by
  have h1 : ∀ o ∈ saveCity recs,
      o.latitude.isSome = true ∧ o.longitude.isSome = true := by
    intro o ho
    unfold saveCity at ho
    rw [List.mem_filter] at ho
    have h2 := ho.2
    rw [Bool.and_eq_true] at h2
    exact h2
  refine ⟨h1, ?_, ?_⟩
  · intro r hr hlat hlng
    unfold saveCity
    rw [List.mem_filter]
    refine ⟨List.mem_map_of_mem toOutRecord hr, ?_⟩
    show ((toOutRecord r).latitude.isSome && (toOutRecord r).longitude.isSome) = true
    have e1 : (toOutRecord r).latitude = toNumeric r.latitude := rfl
    have e2 : (toOutRecord r).longitude = toNumeric r.longitude := rfl
    rw [e1, e2, hlat, hlng]
    rfl
  · intro r hr hor hmem
    have h := h1 (toOutRecord r) hmem
    rcases hor with hl | hl
    · have h2 : (toNumeric r.latitude).isSome = true := h.1
      rw [hl] at h2
      exact Bool.noConfusion h2
    · have h2 : (toNumeric r.longitude).isSome = true := h.2
      rw [hl] at h2
      exact Bool.noConfusion h2

/-- Witness for C7: with a record with numeric coordinates and one with an
unparsable latitude, the saved output keeps the first and drops the second. -/
theorem coordinate_filter_witness :
    toOutRecord recGood ∈ saveCity [recGood, recBad] ∧
    toOutRecord recBad ∉ saveCity [recGood, recBad] := by
  have h := coordinate_filter [recGood, recBad]
  exact ⟨h.2.1 recGood (by decide) (by decide) (by decide),
         h.2.2 recBad (by decide) (by decide)⟩

/-- C8: in every record `process_pharmacy` assembles, the Street, Neighborhood
and City fields are the stripped first, second and third comma segments of the
record's formatted address whenever those segments exist, and the fields of
the missing segments default to `N/A`. -/
theorem address_fields_from_segments (cfg : SocialCfg) (pid city : String)
    (resp : DetailsResp) (r : PharmacyData)
    (h : process_pharmacy cfg pid city resp = some r) :
    (∀ s, (pySplit r.address ',').get? 0 = some s → r.street = pyStrip s) ∧
    (∀ s, (pySplit r.address ',').get? 1 = some s → r.neighborhood = pyStrip s) ∧
    (∀ s, (pySplit r.address ',').get? 2 = some s → r.city = pyStrip s) ∧
    ((pySplit r.address ',').get? 1 = none → r.neighborhood = "N/A") ∧
    ((pySplit r.address ',').get? 2 = none → r.city = "N/A") := by
  obtain ⟨ha, hs, hn, hc⟩ := process_pharmacy_fields cfg pid city resp r h
  refine ⟨?_, ?_, ?_, ?_, ?_⟩
  · intro s h0
    rw [hs, h0]
    rfl
  · intro s h0
    rw [hn, h0]
    rfl
  · intro s h0
    rw [hc, h0]
    rfl
  · intro h0
    rw [hn, h0]
    rfl
  · intro h0
    rw [hc, h0]
    rfl

/-- Witness for C8: the two-segment address `Rua A, Centro` gives Street
`Rua A`, Neighborhood `Centro`, and the City field defaults to `N/A`. -/
theorem address_fields_from_segments_witness :
    recAddr.street = pyStrip "Rua A" ∧ recAddr.neighborhood = pyStrip " Centro" ∧
    recAddr.city = "N/A" := by
  have h := address_fields_from_segments cfgC "p9" "c"
    (DetailsResp.result detAddr) recAddr (by decide)
  exact ⟨h.1 "Rua A" (by decide), h.2.1 " Centro" (by decide),
         h.2.2.2.2 (by decide)⟩

/-- C10 counterexample: a details response whose formatted address begins with
a literal `N/A` segment produces a record whose Street field is the string
`N/A`, so the Street field is not never-`N/A` as claimed. -/
theorem street_na_counterexample :
    (process_pharmacy cfgC "p0" "c" (DetailsResp.result detNA)).map
      PharmacyData.street = some "N/A" := by
  decide

/-- C10 (amended): the Street field never takes the `N/A` default: in every
assembled record it equals the stripped first comma segment of the formatted
address (the whole stripped address, or the empty string when the address is
missing or empty), because `parse_address` always assigns the route component;
only Neighborhood and City can fall back to `N/A`. -/
theorem street_never_defaulted (cfg : SocialCfg) (pid city : String)
    (resp : DetailsResp) (r : PharmacyData)
    (h : process_pharmacy cfg pid city resp = some r) :
    r.street = pyStrip ((pySplit r.address ',').headI) ∧
    ∀ a : String, (parse_address a).route ≠ none := by
  obtain ⟨ha, hs, hn, hc⟩ := process_pharmacy_fields cfg pid city resp r h
  constructor
  · rw [hs]
    cases hp : pySplit r.address ',' with
    | nil => exact absurd hp (pySplit_ne_nil _ _)
    | cons w ws => rfl
  · intro a
    unfold parse_address
    cases hp : pySplit a ',' with
    | nil => exact absurd hp (pySplit_ne_nil _ _)
    | cons w ws => simp [hp]

/-- Witness for C10 (amended): the `N/A`-street record of the counterexample
indeed carries the stripped first segment of its address, and the route of the
empty address is assigned. -/
theorem street_never_defaulted_witness :
    recNA.street = pyStrip ((pySplit recNA.address ',').headI) ∧
    (parse_address "").route ≠ none := by
  have h := street_never_defaulted cfgC "p0" "c" (DetailsResp.result detNA)
    recNA (by decide)
  exact ⟨h.1, h.2 ""⟩

/-- C9: `normalize_name` maps `Farmácia São João Ltda.` to
`Farmacia Sao Joao`, which contains no `Ltda` token and no non-ASCII
character; and for every input, the output contains only word characters and
spaces (diacritics folded, punctuation stripped) with its whitespace
collapsed: no two adjacent whitespace characters and no leading or trailing
whitespace. -/
theorem normalize_name_spec :
    normalize_name "Farmácia São João Ltda." = "Farmacia Sao Joao" ∧
    containsSeq "Ltda".data (normalize_name "Farmácia São João Ltda.").data
      = false ∧
    (∀ c ∈ (normalize_name "Farmácia São João Ltda.").data, c.toNat < 128) ∧
    (∀ s : String, ∀ c ∈ (normalize_name s).data,
      isWordChar c = true ∨ c = ' ') ∧
    (∀ s : String, noTwoSpaces (normalize_name s).data = true ∧
      noEdgeWs (normalize_name s).data = true) := by
  refine ⟨by decide, by decide, by decide, ?_, ?_⟩
  · intro s c hc
    unfold normalize_name at hc
    by_cases hs : s = ""
    · rw [if_pos hs] at hc
      simp at hc
    · rw [if_neg hs] at hc
      have hc' : c ∈ trimChars
          (squeezeWs (stripPunct (subSuffixes (asciiFold s.data)))) := hc
      have h1 := mem_trimChars _ c hc'
      rcases mem_squeezeWs _ c h1 with h2 | h3
      · exact Or.inr h2
      · have h4 := mem_stripPunct _ c h3.1
        have h6 : isWordChar c = true ∨ isPyWs c = true := by
          simpa using h4.1
        rcases h6 with h5 | h5
        · exact Or.inl h5
        · rw [h3.2] at h5
          exact Bool.noConfusion h5
  · intro s
    unfold normalize_name
    by_cases hs : s = ""
    · rw [if_pos hs]
      exact ⟨rfl, rfl⟩
    · rw [if_neg hs]
      constructor
      · show noTwoSpaces (trimChars
          (squeezeWs (stripPunct (subSuffixes (asciiFold s.data))))) = true
        unfold trimChars
        exact noTwoSpaces_trimTrailing _
          (noTwoSpaces_dropWhile isPyWs _ (squeezeWs_noTwo _))
      · show noEdgeWs (trimChars
          (squeezeWs (stripPunct (subSuffixes (asciiFold s.data))))) = true
        exact trimChars_noEdge _

/-- Witness for C9: the quantified clauses instantiated on concrete strings. -/
theorem normalize_name_spec_witness :
    (isWordChar 'F' = true ∨ 'F' = ' ') ∧
    noTwoSpaces (normalize_name "Drogaria  Ltda.").data = true :=
  ⟨normalize_name_spec.2.2.2.1 "Farmácia São João Ltda." 'F' (by decide),
   (normalize_name_spec.2.2.2.2 "Drogaria  Ltda.").1⟩

end SantosArchive
